import Mathlib

/-!
# Verification of the Math24 puzzle core

This file is a shallow embedding of the core of `src/math24-game/src/Math24Game.tsx`:
the solvability search `findSolution` (with its inner recursive `search`) and the
puzzle generator `generateSolvablePuzzle`, together with proofs of the specified
properties.

Modelling choices:
* The JS numeric `val` field is modelled by an exact fraction type `Frac`
  (integer numerator and denominator); every arithmetic step of the search keeps
  the denominator positive, and a homomorphism to `ℚ` connects the fraction
  comparisons to the spec's `1e-6` and `1e-9` tolerances read as exact rationals.
* The inner recursion is written with a structural fuel parameter that equals the
  pool length at the top-level call; a fuel-irrelevance theorem shows any fuel at
  least the pool length gives the same result, which is exactly the spec's
  "pool size strictly decreases, depth bounded by the initial pool size" claim.
* The generator's `Math.random` sampling and the comparator-based shuffle are
  modelled by explicit parameters: a list of sampled 4-tuples and a shuffle
  function (constrained, where needed, to return a permutation of its input,
  which is all JS `Array.prototype.sort` guarantees for an inconsistent
  comparator).
* A ghost syntax tree `AExp` with its standard evaluation, rendering and leaf
  functions expresses "the returned string evaluates to 24 and uses each input
  number exactly once".
-/

/-- Difficulty mode: `easy` (no division) or `hard` (all four operators). -/
inductive Mode where
  | easy
  | hard
deriving DecidableEq, Repr

/-- Exact fraction modelling the JS numeric `val` field.  All fractions built by
the search have a positive denominator (proved below, not enforced by the type). -/
structure Frac where
  num : Int
  den : Int
deriving DecidableEq, Repr

instance : Inhabited Frac := ⟨⟨0, 1⟩⟩

def Frac.ofInt (n : Int) : Frac := ⟨n, 1⟩

def Frac.add (a b : Frac) : Frac := ⟨a.num * b.den + b.num * a.den, a.den * b.den⟩

def Frac.sub (a b : Frac) : Frac := ⟨a.num * b.den - b.num * a.den, a.den * b.den⟩

def Frac.mul (a b : Frac) : Frac := ⟨a.num * b.num, a.den * b.den⟩

/-- Division; the sign flip keeps the denominator positive when the divisor is
negative.  Only ever used on divisors that passed the near-zero guard. -/
def Frac.div (a b : Frac) : Frac :=
  if 0 ≤ b.num then ⟨a.num * b.den, a.den * b.num⟩
  else ⟨-(a.num * b.den), -(a.den * b.num)⟩

/-- `|x| < a / b` for positive integers `a`, `b`; faithful to the JS comparison
whenever `0 < x.den` (proved below). -/
def Frac.absLt (x : Frac) (a b : Int) : Bool := b * (x.num.natAbs : Int) < a * x.den

/-- The rational number a fraction denotes. -/
def Frac.toRat (x : Frac) : ℚ := (x.num : ℚ) / (x.den : ℚ)

/-- A pool entry (`ExprNode` in the source): a numeric value paired with the
expression text that produced it. -/
structure ExprNode where
  val : Frac
  expr : String
deriving DecidableEq, Repr

instance : Inhabited ExprNode := ⟨⟨default, ""⟩⟩

/-- An operator: its symbol and its combination function (named `calc` in the
source; `calc` is a Lean keyword, hence `calcFn`).  Division returns `none`
(JS `null`) when the divisor is within `1e-9` of zero. -/
structure Op where
  symbol : String
  calcFn : ExprNode → ExprNode → Option ExprNode

def opAdd : Op :=
  ⟨"+", fun a b => some ⟨a.val.add b.val, "(" ++ a.expr ++ "+" ++ b.expr ++ ")"⟩⟩

def opSub : Op :=
  ⟨"-", fun a b => some ⟨a.val.sub b.val, "(" ++ a.expr ++ "-" ++ b.expr ++ ")"⟩⟩

def opMul : Op :=
  ⟨"*", fun a b => some ⟨a.val.mul b.val, "(" ++ a.expr ++ "*" ++ b.expr ++ ")"⟩⟩

def opDiv : Op :=
  ⟨"/", fun a b =>
    if b.val.absLt 1 1000000000 then none
    else some ⟨a.val.div b.val, "(" ++ a.expr ++ "/" ++ b.expr ++ ")"⟩⟩

def ops : List Op := [opAdd, opSub, opMul, opDiv]

/-- The ordered pairs `(i, j)` of distinct positions below `n`, in the order the
source's two nested `for` loops (with the `i === j` `continue`) visit them. -/
def pairIndices (n : Nat) : List (Nat × Nat) :=
  (List.range n).flatMap fun i =>
    (List.range n).filterMap fun j => if i = j then none else some (i, j)

/-- `arr.filter((_, idx) => idx !== i && idx !== j)`: the pool with the entries
at positions `i` and `j` removed. -/
def removeTwo {α : Type} [Inhabited α] (arr : List α) (i j : Nat) : List α :=
  ((List.range arr.length).filter fun idx => idx ≠ i && idx ≠ j).map
    fun idx => arr.getD idx default

/-- The list with the entry at position `i` removed (helper for reasoning about
`removeTwo`; not itself part of the source). -/
def removeOne {α : Type} [Inhabited α] (arr : List α) (i : Nat) : List α :=
  ((List.range arr.length).filter fun idx => idx ≠ i).map fun idx => arr.getD idx default

/-- The recursive search (`search` in the source) over a pool of operands, with
a structural fuel argument.  Each recursive call shrinks the pool by exactly
one, so fuel equal to the pool length never runs out (`searchAux_fuel_indep`). -/
def searchAux (mode : Mode) : Nat → List ExprNode → Option String
  | 0, _ => none
  | fuel + 1, arr =>
    if arr.length = 1 then
      if ((arr.getD 0 default).val.sub (Frac.ofInt 24)).absLt 1 1000000 then
        some (arr.getD 0 default).expr
      else none
    else
      (pairIndices arr.length).findSome? fun ij =>
        let rest := removeTwo arr ij.1 ij.2
        ops.findSome? fun op =>
          if mode == Mode.easy && op.symbol == "/" then none
          else
            match op.calcFn (arr.getD ij.1 default) (arr.getD ij.2 default) with
            | none => none
            | some result => searchAux mode fuel (rest ++ [result])

/-- The inner `search` closure of `findSolution`. -/
def search (mode : Mode) (arr : List ExprNode) : Option String :=
  searchAux mode arr.length arr

/-- `findSolution(nums, mode)` from the source: seed the pool with the numbers
and their decimal texts, then run the search. -/
def findSolution (nums : List Int) (mode : Mode) : Option String :=
  search mode (nums.map fun n => ⟨Frac.ofInt n, toString n⟩)

/-- The `Puzzle` record from the source. -/
structure Puzzle where
  nums : List Int
  hints : List String
  solution : String
deriving DecidableEq, Repr

/-- One iteration of the generator's retry loop body: if the sampled numbers are
solvable, build the puzzle (shuffled display order, empty hints, the found
solution), otherwise report failure so the loop resamples. -/
def generateAttempt (mode : Mode) (shuffle : List Int → List Int)
    (nums : List Int) : Option Puzzle :=
  match findSolution nums mode with
  | some solution => some ⟨shuffle nums, [], solution⟩
  | none => none

/-- `generateSolvablePuzzle(mode)` with its randomness made explicit: `samples`
is the stream of sampled 4-tuples the `while (true)` loop would draw, and
`shuffle` models `[...arr].sort(() => Math.random() - 0.5)`.  The loop returns
the puzzle built from the first solvable sample. -/
def generateSolvablePuzzle (mode : Mode) (shuffle : List Int → List Int)
    (samples : List (List Int)) : Option Puzzle :=
  samples.findSome? (generateAttempt mode shuffle)

/-- Ghost syntax of fully parenthesized arithmetic expressions over integer
literals, used to state what the returned strings mean. -/
inductive AExp where
  | num (n : Int)
  | add (a b : AExp)
  | sub (a b : AExp)
  | mul (a b : AExp)
  | div (a b : AExp)
deriving DecidableEq, Repr

instance : Inhabited AExp := ⟨.num 0⟩

/-- Standard rational evaluation of an expression. -/
def AExp.eval : AExp → ℚ
  | .num n => (n : ℚ)
  | .add a b => a.eval + b.eval
  | .sub a b => a.eval - b.eval
  | .mul a b => a.eval * b.eval
  | .div a b => a.eval / b.eval

/-- The text of an expression, parenthesizing every compound exactly as the
source's `calc` functions do. -/
def AExp.render : AExp → String
  | .num n => toString n
  | .add a b => "(" ++ a.render ++ "+" ++ b.render ++ ")"
  | .sub a b => "(" ++ a.render ++ "-" ++ b.render ++ ")"
  | .mul a b => "(" ++ a.render ++ "*" ++ b.render ++ ")"
  | .div a b => "(" ++ a.render ++ "/" ++ b.render ++ ")"

/-- The numbers used by an expression, left to right, with multiplicity. -/
def AExp.leaves : AExp → List Int
  | .num n => [n]
  | .add a b => a.leaves ++ b.leaves
  | .sub a b => a.leaves ++ b.leaves
  | .mul a b => a.leaves ++ b.leaves
  | .div a b => a.leaves ++ b.leaves

/-- Every division inside the expression has a divisor whose value is at least
`1e-9` in absolute value (so in particular never zero). -/
def AExp.Safe : AExp → Prop
  | .num _ => True
  | .add a b => a.Safe ∧ b.Safe
  | .sub a b => a.Safe ∧ b.Safe
  | .mul a b => a.Safe ∧ b.Safe
  | .div a b => a.Safe ∧ b.Safe ∧ ¬ |b.eval| < 1 / 1000000000

/-- The expression contains no division at all. -/
def AExp.NoDiv : AExp → Prop
  | .num _ => True
  | .add a b => a.NoDiv ∧ b.NoDiv
  | .sub a b => a.NoDiv ∧ b.NoDiv
  | .mul a b => a.NoDiv ∧ b.NoDiv
  | .div _ _ => False

/-- The invariant tying a pool entry to the ghost expression it denotes: the
texts agree, the denominator is positive, the fraction denotes the expression's
value, every division in the expression passed the near-zero guard, and in easy
mode the expression is division-free. -/
def NodeInv (mode : Mode) (node : ExprNode) (e : AExp) : Prop :=
  node.expr = e.render ∧ 0 < node.val.den ∧ node.val.toRat = e.eval ∧ e.Safe ∧
    (mode = Mode.easy → e.NoDiv)

/-! ## Fraction arithmetic: denominators stay positive and `toRat` is a
homomorphism -/

theorem Frac.toRat_ofInt (n : Int) : (Frac.ofInt n).toRat = (n : ℚ) := by
  simp [Frac.ofInt, Frac.toRat]

theorem Frac.den_add_pos {a b : Frac} (ha : 0 < a.den) (hb : 0 < b.den) :
    0 < (a.add b).den := mul_pos ha hb

theorem Frac.den_sub_pos {a b : Frac} (ha : 0 < a.den) (hb : 0 < b.den) :
    0 < (a.sub b).den := mul_pos ha hb

theorem Frac.den_mul_pos {a b : Frac} (ha : 0 < a.den) (hb : 0 < b.den) :
    0 < (a.mul b).den := mul_pos ha hb

theorem Frac.den_div_pos {a b : Frac} (ha : 0 < a.den) (hnum : b.num ≠ 0) :
    0 < (a.div b).den := by
  unfold Frac.div
  rcases lt_or_gt_of_ne hnum with h | h
  · rw [if_neg (by omega)]
    have : a.den * b.num < 0 := mul_neg_of_pos_of_neg ha h
    simpa using this
  · rw [if_pos (le_of_lt h)]
    exact mul_pos ha h

theorem Frac.toRat_add {a b : Frac} (ha : a.den ≠ 0) (hb : b.den ≠ 0) :
    (a.add b).toRat = a.toRat + b.toRat := by
  unfold Frac.add Frac.toRat
  have ha' : ((a.den : ℚ)) ≠ 0 := Int.cast_ne_zero.mpr ha
  have hb' : ((b.den : ℚ)) ≠ 0 := Int.cast_ne_zero.mpr hb
  push_cast
  field_simp

theorem Frac.toRat_sub {a b : Frac} (ha : a.den ≠ 0) (hb : b.den ≠ 0) :
    (a.sub b).toRat = a.toRat - b.toRat := by
  unfold Frac.sub Frac.toRat
  have ha' : ((a.den : ℚ)) ≠ 0 := Int.cast_ne_zero.mpr ha
  have hb' : ((b.den : ℚ)) ≠ 0 := Int.cast_ne_zero.mpr hb
  push_cast
  field_simp
  ring

theorem Frac.toRat_mul {a b : Frac} (ha : a.den ≠ 0) (hb : b.den ≠ 0) :
    (a.mul b).toRat = a.toRat * b.toRat := by
  unfold Frac.mul Frac.toRat
  have ha' : ((a.den : ℚ)) ≠ 0 := Int.cast_ne_zero.mpr ha
  have hb' : ((b.den : ℚ)) ≠ 0 := Int.cast_ne_zero.mpr hb
  push_cast
  field_simp

theorem Frac.toRat_div {a b : Frac} (ha : a.den ≠ 0) (hb : b.den ≠ 0)
    (hnum : b.num ≠ 0) : (a.div b).toRat = a.toRat / b.toRat := by
  have ha' : ((a.den : ℚ)) ≠ 0 := Int.cast_ne_zero.mpr ha
  have hb' : ((b.den : ℚ)) ≠ 0 := Int.cast_ne_zero.mpr hb
  have hn' : ((b.num : ℚ)) ≠ 0 := Int.cast_ne_zero.mpr hnum
  unfold Frac.div Frac.toRat
  by_cases h : 0 ≤ b.num
  · rw [if_pos h]
    push_cast
    field_simp
  · rw [if_neg h]
    push_cast
    field_simp

theorem Frac.toRat_eq_zero_iff {x : Frac} (hd : x.den ≠ 0) :
    x.toRat = 0 ↔ x.num = 0 := by
  unfold Frac.toRat
  rw [div_eq_zero_iff]
  constructor
  · rintro (h | h)
    · exact_mod_cast h
    · exact absurd (Int.cast_injective (by simpa using h)) hd
  · intro h
    exact Or.inl (by exact_mod_cast h)

theorem Frac.absLt_iff {x : Frac} {a b : Int} (hd : 0 < x.den) (ha : 0 < a)
    (hb : 0 < b) : x.absLt a b = true ↔ |x.toRat| < (a : ℚ) / (b : ℚ) := by
  unfold Frac.absLt Frac.toRat
  have hd' : (0 : ℚ) < (x.den : ℚ) := by exact_mod_cast hd
  have hb' : (0 : ℚ) < (b : ℚ) := by exact_mod_cast hb
  rw [abs_div, abs_of_pos hd', div_lt_div_iff₀ hd' hb', decide_eq_true_eq]
  constructor
  · intro h
    have h' : ((b * (x.num.natAbs : Int) : Int) : ℚ) < ((a * x.den : Int) : ℚ) := by
      exact_mod_cast h
    push_cast [Int.cast_natAbs] at h'
    linarith
  · intro h
    have h' : ((b * (x.num.natAbs : Int) : Int) : ℚ) < ((a * x.den : Int) : ℚ) := by
      push_cast [Int.cast_natAbs]
      linarith
    exact_mod_cast h'

theorem Frac.absLt_target_iff {x : Frac} (hd : 0 < x.den) :
    (x.sub (Frac.ofInt 24)).absLt 1 1000000 = true ↔
      |x.toRat - 24| < 1 / 1000000 := by
  have h24 : (Frac.ofInt 24).den = 1 := rfl
  have hds : 0 < (x.sub (Frac.ofInt 24)).den :=
    Frac.den_sub_pos hd (by rw [h24]; norm_num)
  rw [Frac.absLt_iff hds (by norm_num) (by norm_num)]
  rw [Frac.toRat_sub (ne_of_gt hd) (by rw [h24]; norm_num), Frac.toRat_ofInt]
  norm_num

theorem Frac.absLt_guard_iff {x : Frac} (hd : 0 < x.den) :
    x.absLt 1 1000000000 = true ↔ |x.toRat| < 1 / 1000000000 := by
  rw [Frac.absLt_iff hd (by norm_num) (by norm_num)]
  norm_num

theorem Frac.num_ne_zero_of_guard {x : Frac} (hd : 0 < x.den)
    (h : ¬ x.absLt 1 1000000000 = true) : x.num ≠ 0 := by
  intro hnum
  apply h
  rw [Frac.absLt_guard_iff hd]
  have : x.toRat = 0 := (Frac.toRat_eq_zero_iff (ne_of_gt hd)).mpr hnum
  rw [this]
  norm_num

/-! ## List helpers: index removal, pair enumeration, `findSome?` -/

theorem map_getD_range {α : Type} [Inhabited α] (l : List α) :
    (List.range l.length).map (fun k => l.getD k default) = l := by
  apply List.ext_getElem (by simp)
  intro i h1 h2
  simp only [List.getElem_map, List.getElem_range]
  exact l.getD_eq_getElem default (by simpa using h2)

theorem filter_range_cons_map {α : Type} [Inhabited α] (x : α) (l : List α)
    (p : Nat → Bool) :
    ((List.range (x :: l).length).filter p).map (fun idx => (x :: l).getD idx default)
      = (if p 0 = true then [x] else [])
        ++ ((List.range l.length).filter (fun k => p (k + 1))).map
            (fun idx => l.getD idx default) := by
  have hcomp : ((fun idx => (x :: l).getD idx default) ∘ Nat.succ)
      = fun k => l.getD k default := by
    funext k
    simp [Function.comp, List.getD_cons_succ]
  have hfilter : List.filter p (List.map Nat.succ (List.range l.length))
      = List.map Nat.succ ((List.range l.length).filter (fun k => p (k + 1))) := by
    rw [List.filter_map]
    rfl
  rw [List.length_cons, List.range_succ_eq_map, List.filter_cons]
  by_cases h0 : p 0 = true
  · rw [if_pos h0, if_pos h0, List.map_cons, hfilter, List.map_map, hcomp,
      List.getD_cons_zero]
    rfl
  · rw [if_neg h0, if_neg h0, hfilter, List.map_map, hcomp]
    rfl

theorem removeOne_cons_zero {α : Type} [Inhabited α] (x : α) (l : List α) :
    removeOne (x :: l) 0 = l := by
  unfold removeOne
  rw [filter_range_cons_map]
  have h1 : (fun k : Nat => (decide (k + 1 ≠ 0))) = fun _ : Nat => true := by
    funext k
    simp
  simp only [decide_eq_true_eq] at *
  rw [if_neg (by simp), h1, List.filter_true, map_getD_range, List.nil_append]

theorem removeOne_cons_succ {α : Type} [Inhabited α] (x : α) (l : List α) (i : Nat) :
    removeOne (x :: l) (i + 1) = x :: removeOne l i := by
  unfold removeOne
  rw [filter_range_cons_map]
  have h1 : (fun k : Nat => (decide (k + 1 ≠ i + 1))) = fun k : Nat => decide (k ≠ i) := by
    funext k
    simp
  rw [if_pos (by simp), h1]
  rfl

theorem removeTwo_cons_zero_succ {α : Type} [Inhabited α] (x : α) (l : List α) (j : Nat) :
    removeTwo (x :: l) 0 (j + 1) = removeOne l j := by
  unfold removeTwo removeOne
  rw [filter_range_cons_map]
  have h1 : (fun k : Nat => (decide (k + 1 ≠ 0) && decide (k + 1 ≠ j + 1)))
      = fun k : Nat => decide (k ≠ j) := by
    funext k
    simp
  rw [if_neg (by simp), h1, List.nil_append]

theorem removeTwo_cons_succ_zero {α : Type} [Inhabited α] (x : α) (l : List α) (i : Nat) :
    removeTwo (x :: l) (i + 1) 0 = removeOne l i := by
  unfold removeTwo removeOne
  rw [filter_range_cons_map]
  have h1 : (fun k : Nat => (decide (k + 1 ≠ i + 1) && decide (k + 1 ≠ 0)))
      = fun k : Nat => decide (k ≠ i) := by
    funext k
    simp
  rw [if_neg (by simp), h1, List.nil_append]

theorem removeTwo_cons_succ_succ {α : Type} [Inhabited α] (x : α) (l : List α) (i j : Nat) :
    removeTwo (x :: l) (i + 1) (j + 1) = x :: removeTwo l i j := by
  unfold removeTwo
  rw [filter_range_cons_map]
  have h1 : (fun k : Nat => (decide (k + 1 ≠ i + 1) && decide (k + 1 ≠ j + 1)))
      = fun k : Nat => (decide (k ≠ i) && decide (k ≠ j)) := by
    funext k
    simp
  rw [if_pos (by simp), h1]
  rfl

theorem removeOne_perm {α : Type} [Inhabited α] :
    ∀ (l : List α) (i : Nat), i < l.length →
      l.Perm (l.getD i default :: removeOne l i) := by
  intro l
  induction l with
  | nil => intro i hi; simp at hi
  | cons x l ih =>
    intro i hi
    match i with
    | 0 =>
      rw [List.getD_cons_zero, removeOne_cons_zero]
    | i + 1 =>
      have hi' : i < l.length := by simpa using hi
      rw [List.getD_cons_succ, removeOne_cons_succ]
      exact ((ih i hi').cons x).trans (List.Perm.swap _ x _)

theorem removeTwo_perm {α : Type} [Inhabited α] :
    ∀ (l : List α) (i j : Nat), i < l.length → j < l.length → i ≠ j →
      l.Perm (l.getD i default :: l.getD j default :: removeTwo l i j) := by
  intro l
  induction l with
  | nil => intro i j hi; simp at hi
  | cons x l ih =>
    intro i j hi hj hij
    match i, j with
    | 0, 0 => exact absurd rfl hij
    | 0, j + 1 =>
      have hj' : j < l.length := by simpa using hj
      rw [List.getD_cons_zero, List.getD_cons_succ, removeTwo_cons_zero_succ]
      exact (removeOne_perm l j hj').cons x
    | i + 1, 0 =>
      have hi' : i < l.length := by simpa using hi
      rw [List.getD_cons_zero, List.getD_cons_succ, removeTwo_cons_succ_zero]
      exact ((removeOne_perm l i hi').cons x).trans (List.Perm.swap _ x _)
    | i + 1, j + 1 =>
      have hi' : i < l.length := by simpa using hi
      have hj' : j < l.length := by simpa using hj
      have hij' : i ≠ j := by omega
      rw [List.getD_cons_succ, List.getD_cons_succ, removeTwo_cons_succ_succ]
      have step1 : (x :: l).Perm
          (x :: l.getD i default :: l.getD j default :: removeTwo l i j) :=
        (ih i j hi' hj' hij').cons x
      have step2 : (x :: l.getD i default :: l.getD j default :: removeTwo l i j).Perm
          (l.getD i default :: x :: l.getD j default :: removeTwo l i j) :=
        List.Perm.swap _ x _
      exact (step1.trans step2).trans ((List.Perm.swap _ x _).cons _)

theorem removeTwo_length {α : Type} [Inhabited α] (l : List α) (i j : Nat)
    (hi : i < l.length) (hj : j < l.length) (hij : i ≠ j) :
    (removeTwo l i j).length = l.length - 2 := by
  have h := (removeTwo_perm l i j hi hj hij).length_eq
  simp only [List.length_cons] at h
  omega

theorem removeTwo_map {α β : Type} [Inhabited α] [Inhabited β] (f : α → β)
    (arr : List α) (i j : Nat) :
    removeTwo (arr.map f) i j = (removeTwo arr i j).map f := by
  unfold removeTwo
  rw [List.length_map, List.map_map]
  apply List.map_congr_left
  intro idx hidx
  have hlt : idx < arr.length := List.mem_range.mp (List.mem_of_mem_filter hidx)
  simp only [Function.comp]
  rw [List.getD_eq_getElem _ _ (by simpa using hlt), List.getD_eq_getElem _ _ hlt,
    List.getElem_map]

theorem getD_map_lt {α β : Type} [Inhabited α] [Inhabited β] (f : α → β)
    (l : List α) (k : Nat) (hk : k < l.length) :
    (l.map f).getD k default = f (l.getD k default) := by
  rw [List.getD_eq_getElem _ _ (by simpa using hk), List.getD_eq_getElem _ _ hk,
    List.getElem_map]

theorem mem_pairIndices {n i j : Nat} :
    (i, j) ∈ pairIndices n ↔ i < n ∧ j < n ∧ i ≠ j := by
  unfold pairIndices
  simp only [List.mem_flatMap, List.mem_filterMap, List.mem_range]
  constructor
  · rintro ⟨a, ha, b, hb, hab⟩
    by_cases h : a = b
    · rw [if_pos h] at hab
      cases hab
    · rw [if_neg h] at hab
      injection hab with hab'
      obtain ⟨rfl, rfl⟩ := Prod.mk.injEq .. ▸ Prod.mk.inj hab'
      exact ⟨ha, hb, h⟩
  · rintro ⟨hi, hj, hij⟩
    exact ⟨i, hi, j, hj, by rw [if_neg hij]⟩

theorem extract_one {α : Type} [Inhabited α] [DecidableEq α] :
    ∀ (l : List α) (a : α) (rest : List α), l.Perm (a :: rest) →
      ∃ i, i < l.length ∧ l.getD i default = a ∧ (removeOne l i).Perm rest := by
  intro l
  induction l with
  | nil =>
    intro a rest h
    exact absurd h.length_eq (by simp)
  | cons x l ih =>
    intro a rest h
    by_cases hxa : x = a
    · subst hxa
      refine ⟨0, by simp, List.getD_cons_zero, ?_⟩
      rw [removeOne_cons_zero]
      exact h.cons_inv
    · have hax : a ∈ x :: l := h.mem_iff.mpr (List.mem_cons_self a _)
      have hal : a ∈ l := by
        rcases List.mem_cons.mp hax with h' | h'
        · exact absurd h'.symm hxa
        · exact h'
      have h1 : l.Perm (a :: l.erase a) := List.perm_cons_erase hal
      have h2 : (x :: l).Perm (a :: x :: l.erase a) :=
        (h1.cons x).trans (List.Perm.swap a x _)
      have h3 : rest.Perm (x :: l.erase a) := (h.symm.trans h2).cons_inv
      obtain ⟨i, hi, hgd, hperm⟩ := ih a (l.erase a) h1
      refine ⟨i + 1, by simpa using Nat.succ_lt_succ hi, by simpa using hgd, ?_⟩
      rw [removeOne_cons_succ]
      exact (hperm.cons x).trans h3.symm

theorem extract_pair {α : Type} [Inhabited α] [DecidableEq α] :
    ∀ (l : List α) (a b : α) (rest : List α), l.Perm (a :: b :: rest) →
      ∃ i j, i < l.length ∧ j < l.length ∧ i ≠ j ∧
        l.getD i default = a ∧ l.getD j default = b ∧ (removeTwo l i j).Perm rest := by
  intro l
  induction l with
  | nil =>
    intro a b rest h
    exact absurd h.length_eq (by simp)
  | cons x l ih =>
    intro a b rest h
    by_cases hxa : x = a
    · subst hxa
      have h1 : l.Perm (b :: rest) := h.cons_inv
      obtain ⟨k, hk, hgd, hperm⟩ := extract_one l b rest h1
      refine ⟨0, k + 1, by simp, by simpa using Nat.succ_lt_succ hk, by omega,
        List.getD_cons_zero, by simpa using hgd, ?_⟩
      rw [removeTwo_cons_zero_succ]
      exact hperm
    · by_cases hxb : x = b
      · subst hxb
        have h1 : (x :: l).Perm (x :: a :: rest) :=
          h.trans (List.Perm.swap x a rest)
        have h2 : l.Perm (a :: rest) := h1.cons_inv
        obtain ⟨k, hk, hgd, hperm⟩ := extract_one l a rest h2
        refine ⟨k + 1, 0, by simpa using Nat.succ_lt_succ hk, by simp, by omega,
          by simpa using hgd, List.getD_cons_zero, ?_⟩
        rw [removeTwo_cons_succ_zero]
        exact hperm
      · have hx : x ∈ rest := by
          have : x ∈ a :: b :: rest := h.mem_iff.mp (List.mem_cons_self x l)
          rcases List.mem_cons.mp this with h' | h'
          · exact absurd h' hxa
          · rcases List.mem_cons.mp h' with h'' | h''
            · exact absurd h'' hxb
            · exact h''
        have hrest : rest.Perm (x :: rest.erase x) := List.perm_cons_erase hx
        have h1 : (x :: l).Perm (a :: b :: x :: rest.erase x) :=
          h.trans ((hrest.cons b).cons a)
        have h2 : (a :: b :: x :: rest.erase x).Perm (x :: a :: b :: rest.erase x) := by
          have s1 : (b :: x :: rest.erase x).Perm (x :: b :: rest.erase x) :=
            List.Perm.swap x b _
          exact (s1.cons a).trans (List.Perm.swap x a _)
        have h3 : l.Perm (a :: b :: rest.erase x) := (h1.trans h2).cons_inv
        obtain ⟨i, j, hi, hj, hij, hga, hgb, hperm⟩ := ih a b (rest.erase x) h3
        refine ⟨i + 1, j + 1, by simpa using Nat.succ_lt_succ hi,
          by simpa using Nat.succ_lt_succ hj, by omega,
          by simpa using hga, by simpa using hgb, ?_⟩
        rw [removeTwo_cons_succ_succ]
        exact (hperm.cons x).trans hrest.symm

theorem findSome?_isSome_of_mem {α β : Type} {l : List α} {f : α → Option β}
    {a : α} (ha : a ∈ l) (h : (f a).isSome = true) :
    (l.findSome? f).isSome = true := by
  induction l with
  | nil => cases ha
  | cons x xs ih =>
    rw [List.findSome?_cons]
    cases hx : f x with
    | some b => simp
    | none =>
      rcases List.mem_cons.mp ha with rfl | ha'
      · rw [hx] at h
        simp at h
      · exact ih ha'

theorem forall₂_getD {α β : Type} [Inhabited α] [Inhabited β] {R : α → β → Prop}
    {l₁ : List α} {l₂ : List β} (h : List.Forall₂ R l₁ l₂) (k : Nat)
    (hk : k < l₁.length) : R (l₁.getD k default) (l₂.getD k default) := by
  obtain ⟨hlen, hget⟩ := List.forall₂_iff_get.mp h
  have hk₂ : k < l₂.length := hlen ▸ hk
  rw [List.getD_eq_getElem _ _ hk, List.getD_eq_getElem _ _ hk₂]
  exact hget k hk hk₂

theorem forall₂_map_same {α β γ : Type} {R : β → γ → Prop} (f : α → β) (g : α → γ)
    (l : List α) (h : ∀ x ∈ l, R (f x) (g x)) :
    List.Forall₂ R (l.map f) (l.map g) := by
  induction l with
  | nil => exact List.Forall₂.nil
  | cons x xs ih =>
    exact List.Forall₂.cons (h x (List.mem_cons_self x xs))
      (ih fun y hy => h y (List.mem_cons_of_mem x hy))

theorem forall₂_removeTwo {α β : Type} [Inhabited α] [Inhabited β]
    {R : α → β → Prop} {l₁ : List α} {l₂ : List β} (h : List.Forall₂ R l₁ l₂)
    (i j : Nat) : List.Forall₂ R (removeTwo l₁ i j) (removeTwo l₂ i j) := by
  unfold removeTwo
  rw [← h.length_eq]
  apply forall₂_map_same
  intro idx hidx
  exact forall₂_getD h idx (List.mem_range.mp (List.mem_of_mem_filter hidx))

/-! ## Soundness of the search -/

theorem searchAux_succ (mode : Mode) (fuel : Nat) (arr : List ExprNode) :
    searchAux mode (fuel + 1) arr =
      if arr.length = 1 then
        if ((arr.getD 0 default).val.sub (Frac.ofInt 24)).absLt 1 1000000 then
          some (arr.getD 0 default).expr
        else none
      else
        (pairIndices arr.length).findSome? fun ij =>
          let rest := removeTwo arr ij.1 ij.2
          ops.findSome? fun op =>
            if mode == Mode.easy && op.symbol == "/" then none
            else
              match op.calcFn (arr.getD ij.1 default) (arr.getD ij.2 default) with
              | none => none
              | some result => searchAux mode fuel (rest ++ [result]) := rfl

theorem forall₂_append {α β : Type} {R : α → β → Prop} :
    ∀ {l₁ t₁ : List α} {l₂ t₂ : List β}, List.Forall₂ R l₁ l₂ →
      List.Forall₂ R t₁ t₂ → List.Forall₂ R (l₁ ++ t₁) (l₂ ++ t₂) := by
  intro l₁ t₁ l₂ t₂ h ht
  induction h with
  | nil => exact ht
  | cons h₁ _ ih => exact List.Forall₂.cons h₁ ih

theorem NodeInv.combine_add {mode : Mode} {a b : ExprNode} {ea eb : AExp}
    (ha : NodeInv mode a ea) (hb : NodeInv mode b eb) :
    NodeInv mode ⟨a.val.add b.val, "(" ++ a.expr ++ "+" ++ b.expr ++ ")"⟩
      (AExp.add ea eb) := by
  unfold NodeInv at ha hb ⊢
  obtain ⟨hea, hda, hva, hsa, hna⟩ := ha
  obtain ⟨heb, hdb, hvb, hsb, hnb⟩ := hb
  refine ⟨?_, ?_, ?_, ?_, ?_⟩
  · show "(" ++ a.expr ++ "+" ++ b.expr ++ ")" = (AExp.add ea eb).render
    rw [hea, heb]
    rfl
  · exact Frac.den_add_pos hda hdb
  · show (a.val.add b.val).toRat = (AExp.add ea eb).eval
    rw [Frac.toRat_add (ne_of_gt hda) (ne_of_gt hdb), hva, hvb]
    rfl
  · exact ⟨hsa, hsb⟩
  · intro hm
    exact ⟨hna hm, hnb hm⟩

theorem NodeInv.combine_sub {mode : Mode} {a b : ExprNode} {ea eb : AExp}
    (ha : NodeInv mode a ea) (hb : NodeInv mode b eb) :
    NodeInv mode ⟨a.val.sub b.val, "(" ++ a.expr ++ "-" ++ b.expr ++ ")"⟩
      (AExp.sub ea eb) := by
  unfold NodeInv at ha hb ⊢
  obtain ⟨hea, hda, hva, hsa, hna⟩ := ha
  obtain ⟨heb, hdb, hvb, hsb, hnb⟩ := hb
  refine ⟨?_, ?_, ?_, ?_, ?_⟩
  · show "(" ++ a.expr ++ "-" ++ b.expr ++ ")" = (AExp.sub ea eb).render
    rw [hea, heb]
    rfl
  · exact Frac.den_sub_pos hda hdb
  · show (a.val.sub b.val).toRat = (AExp.sub ea eb).eval
    rw [Frac.toRat_sub (ne_of_gt hda) (ne_of_gt hdb), hva, hvb]
    rfl
  · exact ⟨hsa, hsb⟩
  · intro hm
    exact ⟨hna hm, hnb hm⟩

theorem NodeInv.combine_mul {mode : Mode} {a b : ExprNode} {ea eb : AExp}
    (ha : NodeInv mode a ea) (hb : NodeInv mode b eb) :
    NodeInv mode ⟨a.val.mul b.val, "(" ++ a.expr ++ "*" ++ b.expr ++ ")"⟩
      (AExp.mul ea eb) := by
  unfold NodeInv at ha hb ⊢
  obtain ⟨hea, hda, hva, hsa, hna⟩ := ha
  obtain ⟨heb, hdb, hvb, hsb, hnb⟩ := hb
  refine ⟨?_, ?_, ?_, ?_, ?_⟩
  · show "(" ++ a.expr ++ "*" ++ b.expr ++ ")" = (AExp.mul ea eb).render
    rw [hea, heb]
    rfl
  · exact Frac.den_mul_pos hda hdb
  · show (a.val.mul b.val).toRat = (AExp.mul ea eb).eval
    rw [Frac.toRat_mul (ne_of_gt hda) (ne_of_gt hdb), hva, hvb]
    rfl
  · exact ⟨hsa, hsb⟩
  · intro hm
    exact ⟨hna hm, hnb hm⟩

theorem NodeInv.combine_div {a b : ExprNode} {ea eb : AExp}
    (ha : NodeInv Mode.hard a ea) (hb : NodeInv Mode.hard b eb)
    (hguard : ¬ b.val.absLt 1 1000000000 = true) :
    NodeInv Mode.hard ⟨a.val.div b.val, "(" ++ a.expr ++ "/" ++ b.expr ++ ")"⟩
      (AExp.div ea eb) := by
  unfold NodeInv at ha hb ⊢
  obtain ⟨hea, hda, hva, hsa, _⟩ := ha
  obtain ⟨heb, hdb, hvb, hsb, _⟩ := hb
  have hnum : b.val.num ≠ 0 := Frac.num_ne_zero_of_guard hdb hguard
  have hebv : ¬ |eb.eval| < 1 / 1000000000 := by
    rw [← hvb]
    intro hcon
    exact hguard ((Frac.absLt_guard_iff hdb).mpr hcon)
  refine ⟨?_, ?_, ?_, ?_, ?_⟩
  · show "(" ++ a.expr ++ "/" ++ b.expr ++ ")" = (AExp.div ea eb).render
    rw [hea, heb]
    rfl
  · exact Frac.den_div_pos hda hnum
  · show (a.val.div b.val).toRat = (AExp.div ea eb).eval
    rw [Frac.toRat_div (ne_of_gt hda) (ne_of_gt hdb) hnum, hva, hvb]
    rfl
  · exact ⟨hsa, hsb, hebv⟩
  · intro hm
    simp at hm

theorem leaves_step (es : List AExp) (i j : Nat) (hi : i < es.length)
    (hj : j < es.length) (hij : i ≠ j) :
    ((removeTwo es i j).flatMap AExp.leaves ++
        ((es.getD i default).leaves ++ (es.getD j default).leaves)).Perm
      (es.flatMap AExp.leaves) := by
  have hflat := List.Perm.flatMap_right AExp.leaves (removeTwo_perm es i j hi hj hij)
  simp only [List.flatMap_cons] at hflat
  refine List.perm_append_comm.trans ?_
  rw [List.append_assoc]
  exact hflat.symm

theorem searchAux_sound (mode : Mode) :
    ∀ (fuel : Nat) (arr : List ExprNode) (es : List AExp),
      List.Forall₂ (NodeInv mode) arr es →
      ∀ s : String, searchAux mode fuel arr = some s →
      ∃ e : AExp, e.render = s ∧ |e.eval - 24| < 1 / 1000000 ∧ e.Safe ∧
        (mode = Mode.easy → e.NoDiv) ∧ e.leaves.Perm (es.flatMap AExp.leaves) := by
  intro fuel
  induction fuel with
  | zero =>
    intro arr es hrel s hs
    cases hs
  | succ fuel ih =>
    intro arr es hrel s hs
    rw [searchAux_succ] at hs
    by_cases hlen : arr.length = 1
    · rw [if_pos hlen] at hs
      obtain ⟨a, rfl⟩ := List.length_eq_one.mp hlen
      cases hrel with
      | cons hinv htail =>
        cases htail
        simp only [List.getD_cons_zero] at hs
        unfold NodeInv at hinv
        obtain ⟨hea, hda, hva, hsa, hna⟩ := hinv
        by_cases habs : (a.val.sub (Frac.ofInt 24)).absLt 1 1000000 = true
        · rw [if_pos habs] at hs
          injection hs with hs'
          subst hs'
          refine ⟨_, hea.symm, ?_, hsa, hna, ?_⟩
          · have := (Frac.absLt_target_iff hda).mp habs
            rw [hva] at this
            exact this
          · rw [List.flatMap_singleton]
        · rw [if_neg habs] at hs
          cases hs
    · rw [if_neg hlen] at hs
      obtain ⟨ij, hmem, hF⟩ := List.exists_of_findSome?_eq_some hs
      obtain ⟨i, j⟩ := ij
      obtain ⟨hi, hj, hij⟩ := mem_pairIndices.mp hmem
      dsimp only at hF
      obtain ⟨op, hopmem, hG⟩ := List.exists_of_findSome?_eq_some hF
      have hlen_es : es.length = arr.length := hrel.length_eq.symm
      have hi' : i < es.length := by omega
      have hj' : j < es.length := by omega
      have hinva := forall₂_getD hrel i hi
      have hinvb := forall₂_getD hrel j hj
      have key : ∀ (result : ExprNode) (eres : AExp), NodeInv mode result eres →
          eres.leaves = (es.getD i default).leaves ++ (es.getD j default).leaves →
          searchAux mode fuel (removeTwo arr i j ++ [result]) = some s →
          ∃ e : AExp, e.render = s ∧ |e.eval - 24| < 1 / 1000000 ∧ e.Safe ∧
            (mode = Mode.easy → e.NoDiv) ∧ e.leaves.Perm (es.flatMap AExp.leaves) := by
        intro result eres hres hleq hrec
        have hrel' : List.Forall₂ (NodeInv mode) (removeTwo arr i j ++ [result])
            (removeTwo es i j ++ [eres]) :=
          forall₂_append (forall₂_removeTwo hrel i j)
            (List.Forall₂.cons hres List.Forall₂.nil)
        obtain ⟨e, h1, h2, h3, h4, h5⟩ := ih _ _ hrel' s hrec
        refine ⟨e, h1, h2, h3, h4, ?_⟩
        refine h5.trans ?_
        rw [List.flatMap_append, List.flatMap_singleton, hleq]
        exact leaves_step es i j hi' hj' hij
      simp only [ops, List.mem_cons, List.not_mem_nil, or_false] at hopmem
      rcases hopmem with rfl | rfl | rfl | rfl
      · have hcond : (mode == Mode.easy && opAdd.symbol == "/") = false := by
          cases mode <;> rfl
        rw [if_neg (by simp [hcond])] at hG
        exact key _ (AExp.add (es.getD i default) (es.getD j default))
          (NodeInv.combine_add hinva hinvb) rfl hG
      · have hcond : (mode == Mode.easy && opSub.symbol == "/") = false := by
          cases mode <;> rfl
        rw [if_neg (by simp [hcond])] at hG
        exact key _ (AExp.sub (es.getD i default) (es.getD j default))
          (NodeInv.combine_sub hinva hinvb) rfl hG
      · have hcond : (mode == Mode.easy && opMul.symbol == "/") = false := by
          cases mode <;> rfl
        rw [if_neg (by simp [hcond])] at hG
        exact key _ (AExp.mul (es.getD i default) (es.getD j default))
          (NodeInv.combine_mul hinva hinvb) rfl hG
      · cases mode with
        | easy =>
          rw [if_pos (show (Mode.easy == Mode.easy && opDiv.symbol == "/") = true
            from rfl)] at hG
          cases hG
        | hard =>
          rw [if_neg (by simp)] at hG
          have hdef : opDiv.calcFn (arr.getD i default) (arr.getD j default) =
              if (arr.getD j default).val.absLt 1 1000000000 = true then none
              else some ⟨(arr.getD i default).val.div (arr.getD j default).val,
                "(" ++ (arr.getD i default).expr ++ "/" ++
                  (arr.getD j default).expr ++ ")"⟩ := rfl
          rw [hdef] at hG
          by_cases hguard : (arr.getD j default).val.absLt 1 1000000000 = true
          · rw [if_pos hguard] at hG
            cases hG
          · rw [if_neg hguard] at hG
            exact key _ (AExp.div (es.getD i default) (es.getD j default))
              (NodeInv.combine_div hinva hinvb hguard) rfl hG

theorem seeds_forall₂ (nums : List Int) (mode : Mode) :
    List.Forall₂ (NodeInv mode)
      (nums.map fun n => ⟨Frac.ofInt n, toString n⟩)
      (nums.map AExp.num) := by
  apply forall₂_map_same
  intro n _
  unfold NodeInv
  refine ⟨rfl, by norm_num [Frac.ofInt], ?_, trivial, fun _ => trivial⟩
  rw [Frac.toRat_ofInt]
  rfl

theorem flatMap_leaves_map_num (nums : List Int) :
    (nums.map AExp.num).flatMap AExp.leaves = nums := by
  induction nums with
  | nil => rfl
  | cons x xs ih =>
    simp only [List.map_cons, List.flatMap_cons, ih]
    rfl

/-- The workhorse soundness result: any string returned by `findSolution`
renders some ghost expression that evaluates within `1e-6` of 24, has all its
divisions guarded, is division-free in easy mode, and uses exactly the input
numbers (with multiplicity). -/
theorem findSolution_sound_general (nums : List Int) (mode : Mode) (s : String)
    (h : findSolution nums mode = some s) :
    ∃ e : AExp, e.render = s ∧ |e.eval - 24| < 1 / 1000000 ∧ e.Safe ∧
      (mode = Mode.easy → e.NoDiv) ∧ e.leaves.Perm nums := by
  unfold findSolution search at h
  obtain ⟨e, h1, h2, h3, h4, h5⟩ :=
    searchAux_sound mode _ _ (nums.map AExp.num) (seeds_forall₂ nums mode) s h
  exact ⟨e, h1, h2, h3, h4, by rwa [flatMap_leaves_map_num] at h5⟩

/-! ## Fuel independence: the recursion depth is bounded by the pool size -/

theorem searchAux_nil (mode : Mode) (f : Nat) : searchAux mode f [] = none := by
  cases f with
  | zero => rfl
  | succ f => rfl

theorem findSome?_congr {α β : Type} {f g : α → Option β} :
    ∀ {l : List α}, (∀ a ∈ l, f a = g a) → l.findSome? f = l.findSome? g := by
  intro l
  induction l with
  | nil => intro _; rfl
  | cons x xs ih =>
    intro h
    rw [List.findSome?_cons, List.findSome?_cons, h x (List.mem_cons_self x xs)]
    cases g x with
    | some b => rfl
    | none => exact ih fun a ha => h a (List.mem_cons_of_mem x ha)

theorem searchAux_fuel_indep (mode : Mode) :
    ∀ (f₁ f₂ : Nat) (arr : List ExprNode), arr.length ≤ f₁ → arr.length ≤ f₂ →
      searchAux mode f₁ arr = searchAux mode f₂ arr := by
  intro f₁
  induction f₁ with
  | zero =>
    intro f₂ arr h1 h2
    have harr : arr = [] := List.length_eq_zero.mp (Nat.le_zero.mp h1)
    subst harr
    rw [searchAux_nil, searchAux_nil]
  | succ f₁ ih =>
    intro f₂ arr h1 h2
    by_cases harr : arr = []
    · subst harr
      rw [searchAux_nil, searchAux_nil]
    · have hpos : 0 < arr.length := List.length_pos.mpr harr
      cases f₂ with
      | zero => exact absurd h2 (by omega)
      | succ g =>
        rw [searchAux_succ, searchAux_succ]
        by_cases hlen : arr.length = 1
        · rw [if_pos hlen, if_pos hlen]
        · rw [if_neg hlen, if_neg hlen]
          apply findSome?_congr
          intro ij hijmem
          obtain ⟨i, j⟩ := ij
          obtain ⟨hi, hj, hij⟩ := mem_pairIndices.mp hijmem
          dsimp only
          apply findSome?_congr
          intro op hop
          by_cases hcond : (mode == Mode.easy && op.symbol == "/") = true
          · rw [if_pos hcond, if_pos hcond]
          · rw [if_neg hcond, if_neg hcond]
            cases hc : op.calcFn (arr.getD i default) (arr.getD j default) with
            | none => rfl
            | some result =>
              have hlenr : (removeTwo arr i j ++ [result]).length = arr.length - 1 := by
                rw [List.length_append, removeTwo_length arr i j hi hj hij]
                simp only [List.length_cons, List.length_nil]
                omega
              apply ih
              · omega
              · omega

/-! ## The found-or-not outcome depends only on the multiset of values -/

theorem searchAux_isSome_mono (mode : Mode) :
    ∀ (f₁ : Nat) (arr₁ arr₂ : List ExprNode) (f₂ : Nat),
      (arr₁.map ExprNode.val).Perm (arr₂.map ExprNode.val) →
      arr₂.length ≤ f₂ →
      (searchAux mode f₁ arr₁).isSome = true →
      (searchAux mode f₂ arr₂).isSome = true := by
  intro f₁
  induction f₁ with
  | zero =>
    intro arr₁ arr₂ f₂ hperm hf₂ hs
    rw [show searchAux mode 0 arr₁ = none from rfl] at hs
    simp at hs
  | succ f₁ ih =>
    intro arr₁ arr₂ f₂ hperm hf₂ hs
    rw [searchAux_succ] at hs
    have hlen12 : arr₁.length = arr₂.length := by
      have h := hperm.length_eq
      simpa using h
    by_cases hlen : arr₁.length = 1
    · obtain ⟨a₁, rfl⟩ := List.length_eq_one.mp hlen
      have hlen2 : arr₂.length = 1 := by omega
      obtain ⟨a₂, rfl⟩ := List.length_eq_one.mp hlen2
      have hval : a₁.val = a₂.val := by
        simp only [List.map_cons, List.map_nil] at hperm
        have h := List.perm_singleton.mp hperm
        injection h
      cases f₂ with
      | zero => exact absurd hf₂ (by simp)
      | succ g =>
        rw [if_pos (show [a₁].length = 1 from rfl)] at hs
        rw [searchAux_succ, if_pos (show [a₂].length = 1 from rfl)]
        simp only [List.getD_cons_zero] at hs ⊢
        by_cases habs : (a₁.val.sub (Frac.ofInt 24)).absLt 1 1000000 = true
        · rw [← hval, if_pos habs]
          rfl
        · rw [if_neg habs] at hs
          simp at hs
    · rw [if_neg hlen] at hs
      obtain ⟨s, hs'⟩ := Option.isSome_iff_exists.mp hs
      obtain ⟨ij, hmem, hF⟩ := List.exists_of_findSome?_eq_some hs'
      obtain ⟨i, j⟩ := ij
      obtain ⟨hi, hj, hij⟩ := mem_pairIndices.mp hmem
      dsimp only at hF
      obtain ⟨op, hopmem, hG⟩ := List.exists_of_findSome?_eq_some hF
      have hperm' : (arr₂.map ExprNode.val).Perm
          ((arr₁.getD i default).val :: (arr₁.getD j default).val ::
            (removeTwo arr₁ i j).map ExprNode.val) := by
        refine hperm.symm.trans ?_
        have h2 := (removeTwo_perm arr₁ i j hi hj hij).map ExprNode.val
        simpa using h2
      obtain ⟨i', j', hi2, hj2, hij2, hga, hgb, hrm⟩ :=
        extract_pair (arr₂.map ExprNode.val) _ _ _ hperm'
      have hi2' : i' < arr₂.length := by simpa using hi2
      have hj2' : j' < arr₂.length := by simpa using hj2
      have hga' : (arr₂.getD i' default).val = (arr₁.getD i default).val := by
        rw [← getD_map_lt ExprNode.val arr₂ i' hi2']
        exact hga
      have hgb' : (arr₂.getD j' default).val = (arr₁.getD j default).val := by
        rw [← getD_map_lt ExprNode.val arr₂ j' hj2']
        exact hgb
      have hrm' : ((removeTwo arr₂ i' j').map ExprNode.val).Perm
          ((removeTwo arr₁ i j).map ExprNode.val) := by
        rw [← removeTwo_map]
        exact hrm
      have hlen2 : ¬ arr₂.length = 1 := by omega
      have hpos2 : 2 ≤ arr₂.length := by
        rcases Nat.lt_or_ge arr₂.length 2 with h | h
        · interval_cases harr2 : arr₂.length <;> omega
        · exact h
      cases f₂ with
      | zero => exact absurd hf₂ (by omega)
      | succ g =>
        have key : ∀ (op' : Op) (r₁ r₂ : ExprNode), op' ∈ ops →
            ¬ (mode == Mode.easy && op'.symbol == "/") = true →
            op'.calcFn (arr₂.getD i' default) (arr₂.getD j' default) = some r₂ →
            r₂.val = r₁.val →
            searchAux mode f₁ (removeTwo arr₁ i j ++ [r₁]) = some s →
            (searchAux mode (g + 1) arr₂).isSome = true := by
          intro op' r₁ r₂ hopmem' hcond hcalc₂ hvals hrec₁
          have hpoolperm : ((removeTwo arr₁ i j ++ [r₁]).map ExprNode.val).Perm
              ((removeTwo arr₂ i' j' ++ [r₂]).map ExprNode.val) := by
            rw [List.map_append, List.map_append]
            refine List.Perm.append hrm'.symm ?_
            simp [hvals]
          have hlenpool : (removeTwo arr₂ i' j' ++ [r₂]).length = arr₂.length - 1 := by
            rw [List.length_append, removeTwo_length arr₂ i' j' hi2' hj2' hij2]
            simp only [List.length_cons, List.length_nil]
            omega
          have hrec₂ : (searchAux mode g (removeTwo arr₂ i' j' ++ [r₂])).isSome = true := by
            refine ih _ _ g hpoolperm (by omega) ?_
            rw [hrec₁]
            rfl
          rw [searchAux_succ, if_neg hlen2]
          refine findSome?_isSome_of_mem
            (show (i', j') ∈ pairIndices arr₂.length from
              mem_pairIndices.mpr ⟨hi2', hj2', hij2⟩) ?_
          dsimp only
          refine findSome?_isSome_of_mem hopmem' ?_
          rw [if_neg hcond, hcalc₂]
          exact hrec₂
        simp only [ops, List.mem_cons, List.not_mem_nil, or_false] at hopmem
        rcases hopmem with rfl | rfl | rfl | rfl
        · have hcond : (mode == Mode.easy && opAdd.symbol == "/") = false := by
            cases mode <;> rfl
          rw [if_neg (by simp [hcond])] at hG
          refine key opAdd _ _ (by simp [ops]) (by simp [hcond]) rfl ?_ hG
          show ((arr₂.getD i' default).val.add (arr₂.getD j' default).val) = _
          rw [hga', hgb']
        · have hcond : (mode == Mode.easy && opSub.symbol == "/") = false := by
            cases mode <;> rfl
          rw [if_neg (by simp [hcond])] at hG
          refine key opSub _ _ (by simp [ops]) (by simp [hcond]) rfl ?_ hG
          show ((arr₂.getD i' default).val.sub (arr₂.getD j' default).val) = _
          rw [hga', hgb']
        · have hcond : (mode == Mode.easy && opMul.symbol == "/") = false := by
            cases mode <;> rfl
          rw [if_neg (by simp [hcond])] at hG
          refine key opMul _ _ (by simp [ops]) (by simp [hcond]) rfl ?_ hG
          show ((arr₂.getD i' default).val.mul (arr₂.getD j' default).val) = _
          rw [hga', hgb']
        · cases mode with
          | easy =>
            rw [if_pos (show (Mode.easy == Mode.easy && opDiv.symbol == "/") = true
              from rfl)] at hG
            cases hG
          | hard =>
            rw [if_neg (by simp)] at hG
            have hdef₁ : opDiv.calcFn (arr₁.getD i default) (arr₁.getD j default) =
                if (arr₁.getD j default).val.absLt 1 1000000000 = true then none
                else some ⟨(arr₁.getD i default).val.div (arr₁.getD j default).val,
                  "(" ++ (arr₁.getD i default).expr ++ "/" ++
                    (arr₁.getD j default).expr ++ ")"⟩ := rfl
            rw [hdef₁] at hG
            by_cases hguard : (arr₁.getD j default).val.absLt 1 1000000000 = true
            · rw [if_pos hguard] at hG
              cases hG
            · rw [if_neg hguard] at hG
              have hdef₂ : opDiv.calcFn (arr₂.getD i' default) (arr₂.getD j' default) =
                  if (arr₂.getD j' default).val.absLt 1 1000000000 = true then none
                  else some ⟨(arr₂.getD i' default).val.div (arr₂.getD j' default).val,
                    "(" ++ (arr₂.getD i' default).expr ++ "/" ++
                      (arr₂.getD j' default).expr ++ ")"⟩ := rfl
              refine key opDiv _
                ⟨(arr₂.getD i' default).val.div (arr₂.getD j' default).val,
                  "(" ++ (arr₂.getD i' default).expr ++ "/" ++
                    (arr₂.getD j' default).expr ++ ")"⟩
                (by simp [ops]) (by simp) ?_ ?_ hG
              · rw [hdef₂, hgb', if_neg hguard]
              · show ((arr₂.getD i' default).val.div (arr₂.getD j' default).val) = _
                rw [hga', hgb']

theorem findSolution_isSome_of_perm (nums nums' : List Int) (mode : Mode)
    (h : nums.Perm nums') (hsome : (findSolution nums mode).isSome = true) :
    (findSolution nums' mode).isSome = true := by
  unfold findSolution search at hsome ⊢
  refine searchAux_isSome_mono mode _ _ _ _ ?_ (by simp) hsome
  rw [List.map_map, List.map_map]
  exact h.map _

/-! ## Rendered strings of division-free expressions contain no slash -/

theorem digitChar_ne_slash (n : Nat) (h : n < 10) : Nat.digitChar n ≠ '/' := by
  interval_cases n <;> decide

theorem toDigitsCore_ne_slash :
    ∀ (fuel n : Nat) (ds : List Char), (∀ c ∈ ds, c ≠ '/') →
      ∀ c ∈ Nat.toDigitsCore 10 fuel n ds, c ≠ '/' := by
  intro fuel
  induction fuel with
  | zero =>
    intro n ds hds c hc
    exact hds c hc
  | succ fuel ih =>
    intro n ds hds c hc
    simp only [Nat.toDigitsCore] at hc
    have hdig : Nat.digitChar (n % 10) ≠ '/' :=
      digitChar_ne_slash (n % 10) (Nat.mod_lt n (by norm_num))
    by_cases h0 : n / 10 = 0
    · rw [if_pos h0] at hc
      rcases List.mem_cons.mp hc with rfl | hc'
      · exact hdig
      · exact hds c hc'
    · rw [if_neg h0] at hc
      refine ih (n / 10) (Nat.digitChar (n % 10) :: ds) ?_ c hc
      intro c' hc'
      rcases List.mem_cons.mp hc' with rfl | hc''
      · exact hdig
      · exact hds c' hc''

theorem nat_repr_ne_slash (m : Nat) : ∀ c ∈ (Nat.repr m).data, c ≠ '/' := by
  intro c hc
  exact toDigitsCore_ne_slash (m + 1) m [] (by intro c' hc'; cases hc') c hc

theorem toString_int_ne_slash (n : Int) : ∀ c ∈ (toString n).data, c ≠ '/' := by
  cases n with
  | ofNat m => exact nat_repr_ne_slash m
  | negSucc m =>
    intro c hc
    have hc' : c ∈ ("-" ++ Nat.repr (m + 1)).data := hc
    rw [String.data_append] at hc'
    rcases List.mem_append.mp hc' with h | h
    · have h' : c ∈ ['-'] := h
      rw [List.mem_singleton] at h'
      subst h'
      decide
    · exact nat_repr_ne_slash (m + 1) c h

theorem mem_compound {c : Char} {a op b : String}
    (hc : c ∈ ("(" ++ a ++ op ++ b ++ ")").data) :
    c = '(' ∨ c ∈ a.data ∨ c ∈ op.data ∨ c ∈ b.data ∨ c = ')' := by
  simp only [String.data_append, List.mem_append] at hc
  rcases hc with (((h | h) | h) | h) | h
  · left
    have h' : c ∈ ['('] := h
    exact List.mem_singleton.mp h'
  · exact Or.inr (Or.inl h)
  · exact Or.inr (Or.inr (Or.inl h))
  · exact Or.inr (Or.inr (Or.inr (Or.inl h)))
  · have h' : c ∈ [')'] := h
    exact Or.inr (Or.inr (Or.inr (Or.inr (List.mem_singleton.mp h'))))

theorem render_noDiv_ne_slash :
    ∀ (e : AExp), e.NoDiv → ∀ c ∈ e.render.data, c ≠ '/' := by
  intro e
  induction e with
  | num n =>
    intro _ c hc
    exact toString_int_ne_slash n c hc
  | add a b iha ihb =>
    intro hnd c hc
    obtain ⟨hna, hnb⟩ := hnd
    rcases mem_compound hc with rfl | h | h | h | rfl
    · decide
    · exact iha hna c h
    · have h' : c ∈ ['+'] := h
      rw [List.mem_singleton] at h'
      subst h'
      decide
    · exact ihb hnb c h
    · decide
  | sub a b iha ihb =>
    intro hnd c hc
    obtain ⟨hna, hnb⟩ := hnd
    rcases mem_compound hc with rfl | h | h | h | rfl
    · decide
    · exact iha hna c h
    · have h' : c ∈ ['-'] := h
      rw [List.mem_singleton] at h'
      subst h'
      decide
    · exact ihb hnb c h
    · decide
  | mul a b iha ihb =>
    intro hnd c hc
    obtain ⟨hna, hnb⟩ := hnd
    rcases mem_compound hc with rfl | h | h | h | rfl
    · decide
    · exact iha hna c h
    · have h' : c ∈ ['*'] := h
      rw [List.mem_singleton] at h'
      subst h'
      decide
    · exact ihb hnb c h
    · decide
  | div a b iha ihb =>
    intro hnd
    cases hnd

/-! ## Generator soundness -/

theorem generateSolvablePuzzle_sound (mode : Mode) (shuffle : List Int → List Int)
    (samples : List (List Int)) (p : Puzzle)
    (hshuffle : ∀ l, (shuffle l).Perm l)
    (h : generateSolvablePuzzle mode shuffle samples = some p) :
    ∃ nums ∈ samples, p.nums.Perm nums ∧ findSolution nums mode = some p.solution ∧
      (findSolution p.nums mode).isSome = true ∧
      ∃ e : AExp, e.render = p.solution ∧ |e.eval - 24| < 1 / 1000000 ∧
        e.leaves.Perm nums := by
  unfold generateSolvablePuzzle at h
  obtain ⟨nums, hmem, hatt⟩ := List.exists_of_findSome?_eq_some h
  unfold generateAttempt at hatt
  cases hfs : findSolution nums mode with
  | none =>
    rw [hfs] at hatt
    cases hatt
  | some sol =>
    rw [hfs] at hatt
    injection hatt with hp
    subst hp
    have hperm : (shuffle nums).Perm nums := hshuffle nums
    have hisSome : (findSolution nums mode).isSome = true := by
      rw [hfs]
      rfl
    refine ⟨nums, hmem, hperm, hfs, ?_, ?_⟩
    · exact findSolution_isSome_of_perm nums (shuffle nums) mode hperm.symm hisSome
    · obtain ⟨e, h1, h2, _, _, h5⟩ := findSolution_sound_general nums mode sol hfs
      exact ⟨e, h1, h2, h5⟩

/-! ## The claims -/

/-- C1: for every list of integers and every mode, if `findSolution` returns a
string `s`, then `s` renders an arithmetic expression whose standard evaluation
is within `1e-6` of 24 and whose leaves are exactly the input numbers, each
used once, counted with multiplicity. -/
theorem findSolution_valid (nums : List Int) (mode : Mode) (s : String)
    (h : findSolution nums mode = some s) :
    ∃ e : AExp, e.render = s ∧ |e.eval - 24| < 1 / 1000000 ∧ e.leaves.Perm nums := by
  obtain ⟨e, h1, h2, _, _, h5⟩ := findSolution_sound_general nums mode s h
  exact ⟨e, h1, h2, h5⟩

set_option maxHeartbeats 8000000 in
theorem findSolution_valid_witness :
    findSolution [1, 2, 3, 4] Mode.hard = some "(4*(3+(1+2)))" ∧
      ∃ e : AExp, e.render = "(4*(3+(1+2)))" ∧ |e.eval - 24| < 1 / 1000000 ∧
        e.leaves.Perm [1, 2, 3, 4] := by
  have h : findSolution [1, 2, 3, 4] Mode.hard = some "(4*(3+(1+2)))" := by decide
  exact ⟨h, findSolution_valid [1, 2, 3, 4] Mode.hard _ h⟩

/-- C2: a puzzle produced by the generator (randomness made explicit: `samples`
is the stream of sampled 4-tuples, `shuffle` any permutation-producing display
shuffle) displays a permutation of a sampled 4-tuple of integers in `[1, 9]`,
stores exactly the witness `findSolution` returned for that sample, remains
independently solvable, and its solution evaluates within `1e-6` of 24. -/
theorem generateSolvablePuzzle_valid (mode : Mode) (shuffle : List Int → List Int)
    (samples : List (List Int)) (p : Puzzle)
    (hshuffle : ∀ l, (shuffle l).Perm l)
    (hsamples : ∀ a ∈ samples, a.length = 4 ∧ ∀ n ∈ a, 1 ≤ n ∧ n ≤ 9)
    (h : generateSolvablePuzzle mode shuffle samples = some p) :
    ∃ nums ∈ samples, nums.length = 4 ∧ (∀ n ∈ nums, 1 ≤ n ∧ n ≤ 9) ∧
      p.nums.Perm nums ∧ findSolution nums mode = some p.solution ∧
      (findSolution p.nums mode).isSome = true ∧
      ∃ e : AExp, e.render = p.solution ∧ |e.eval - 24| < 1 / 1000000 := by
  obtain ⟨nums, hmem, hperm, hfs, hsome, e, h1, h2, _⟩ :=
    generateSolvablePuzzle_sound mode shuffle samples p hshuffle h
  obtain ⟨hlen, hrange⟩ := hsamples nums hmem
  exact ⟨nums, hmem, hlen, hrange, hperm, hfs, hsome, e, h1, h2⟩

set_option maxHeartbeats 8000000 in
theorem generateSolvablePuzzle_valid_witness :
    generateSolvablePuzzle Mode.hard id [[1, 2, 3, 4]] =
        some ⟨[1, 2, 3, 4], [], "(4*(3+(1+2)))"⟩ ∧
      ∃ nums ∈ [[1, 2, 3, 4]], nums.length = 4 ∧ (∀ n ∈ nums, 1 ≤ n ∧ n ≤ 9) ∧
        (Puzzle.mk [1, 2, 3, 4] [] "(4*(3+(1+2)))").nums.Perm nums ∧
        findSolution nums Mode.hard =
          some (Puzzle.mk [1, 2, 3, 4] [] "(4*(3+(1+2)))").solution ∧
        (findSolution (Puzzle.mk [1, 2, 3, 4] [] "(4*(3+(1+2)))").nums Mode.hard).isSome
            = true ∧
        ∃ e : AExp, e.render = (Puzzle.mk [1, 2, 3, 4] [] "(4*(3+(1+2)))").solution ∧
          |e.eval - 24| < 1 / 1000000 := by
  have h : generateSolvablePuzzle Mode.hard id [[1, 2, 3, 4]] =
      some ⟨[1, 2, 3, 4], [], "(4*(3+(1+2)))"⟩ := by decide
  exact ⟨h, generateSolvablePuzzle_valid Mode.hard id [[1, 2, 3, 4]] _
    (fun l => List.Perm.refl l) (by decide) h⟩

set_option maxHeartbeats 80000000 in
/-- C3: on the fixed vectors, `findSolution([1,2,3,4], hard)` finds a solution
and `findSolution([1,1,1,1], hard)` reports no solution. -/
theorem findSolution_fixed_cases :
    (findSolution [1, 2, 3, 4] Mode.hard).isSome = true ∧
      findSolution [1, 1, 1, 1] Mode.hard = none := by
  constructor
  · decide
  · decide

set_option maxHeartbeats 8000000 in
/-- C4: on `[3,8,3,8]` in hard mode, `findSolution` returns a witness string
(the rendering of some expression) that evaluates within `1e-6` of 24. -/
theorem findSolution_3838 :
    ∃ e : AExp, findSolution [3, 8, 3, 8] Mode.hard = some e.render ∧
      |e.eval - 24| < 1 / 1000000 := by
  refine ⟨AExp.div (AExp.num 8)
    (AExp.sub (AExp.num 3) (AExp.div (AExp.num 8) (AExp.num 3))), ?_, ?_⟩
  · decide
  · norm_num [AExp.eval]

/-- C5: the division operator branch is pruned (returns `none`, not an error)
whenever the divisor value is within `1e-9` of zero, and consequently every
string `findSolution` returns renders an expression all of whose divisions have
divisors of absolute value at least `1e-9` (so no division by near-zero, no
infinite or undefined value, in any returned expression). -/
theorem findSolution_div_guard (a b : ExprNode) (nums : List Int) (mode : Mode)
    (s : String) (hb : b.val.absLt 1 1000000000 = true)
    (hs : findSolution nums mode = some s) :
    opDiv.calcFn a b = none ∧ ∃ e : AExp, e.render = s ∧ e.Safe := by
  constructor
  · have hdef : opDiv.calcFn a b =
        if b.val.absLt 1 1000000000 = true then none
        else some ⟨a.val.div b.val, "(" ++ a.expr ++ "/" ++ b.expr ++ ")"⟩ := rfl
    rw [hdef, if_pos hb]
  · obtain ⟨e, h1, _, h3, _, _⟩ := findSolution_sound_general nums mode s hs
    exact ⟨e, h1, h3⟩

set_option maxHeartbeats 8000000 in
theorem findSolution_div_guard_witness :
    (ExprNode.mk ⟨0, 1⟩ "0").val.absLt 1 1000000000 = true ∧
      findSolution [1, 2, 3, 4] Mode.hard = some "(4*(3+(1+2)))" ∧
      opDiv.calcFn ⟨⟨7, 1⟩, "7"⟩ ⟨⟨0, 1⟩, "0"⟩ = none ∧
      ∃ e : AExp, e.render = "(4*(3+(1+2)))" ∧ e.Safe := by
  have hb : (ExprNode.mk ⟨0, 1⟩ "0").val.absLt 1 1000000000 = true := by decide
  have hs : findSolution [1, 2, 3, 4] Mode.hard = some "(4*(3+(1+2)))" := by decide
  obtain ⟨h1, h2⟩ := findSolution_div_guard ⟨⟨7, 1⟩, "7"⟩ ⟨⟨0, 1⟩, "0"⟩
    [1, 2, 3, 4] Mode.hard "(4*(3+(1+2)))" hb hs
  exact ⟨hb, hs, h1, h2⟩

/-- C6: in easy mode, any string `findSolution` returns contains no `/`
character, for every input list. -/
theorem findSolution_easy_no_slash (nums : List Int) (s : String)
    (h : findSolution nums Mode.easy = some s) : '/' ∉ s.data := by
  obtain ⟨e, h1, _, _, h4, _⟩ := findSolution_sound_general nums Mode.easy s h
  intro hc
  rw [← h1] at hc
  exact render_noDiv_ne_slash e (h4 rfl) '/' hc rfl

set_option maxHeartbeats 8000000 in
theorem findSolution_easy_no_slash_witness :
    findSolution [1, 2, 3, 4] Mode.easy = some "(4*(3+(1+2)))" ∧
      '/' ∉ "(4*(3+(1+2)))".data := by
  have h : findSolution [1, 2, 3, 4] Mode.easy = some "(4*(3+(1+2)))" := by decide
  exact ⟨h, findSolution_easy_no_slash [1, 2, 3, 4] _ h⟩

/-- C7: `findSolution` is a pure function (it is a Lean function of its two
arguments), and whether it finds a solution depends only on the multiset of
inputs: permuted input lists succeed or fail together. -/
theorem findSolution_perm_invariant (nums nums' : List Int) (mode : Mode)
    (h : nums.Perm nums') :
    (findSolution nums mode).isSome = (findSolution nums' mode).isSome := by
  by_cases h1 : (findSolution nums mode).isSome = true
  · rw [h1, findSolution_isSome_of_perm nums nums' mode h h1]
  · by_cases h2 : (findSolution nums' mode).isSome = true
    · exact absurd (findSolution_isSome_of_perm nums' nums mode h.symm h2) h1
    · rw [Bool.not_eq_true] at h1 h2
      rw [h1, h2]

set_option maxHeartbeats 8000000 in
theorem findSolution_perm_invariant_witness :
    ([1, 2, 3, 4] : List Int).Perm [4, 3, 2, 1] ∧
      (findSolution [1, 2, 3, 4] Mode.hard).isSome
        = (findSolution [4, 3, 2, 1] Mode.hard).isSome := by
  have h : ([1, 2, 3, 4] : List Int).Perm [4, 3, 2, 1] := by decide
  exact ⟨h, findSolution_perm_invariant [1, 2, 3, 4] [4, 3, 2, 1] Mode.hard h⟩

/-- C8: the recursion terminates because each recursive call works on a pool
exactly one element smaller (two operands removed, the combined one added);
hence any fuel at least the pool size — in particular the pool size itself,
which bounds the recursion depth — gives the search's result. -/
theorem search_terminates (mode : Mode) (arr : List ExprNode) (f : Nat)
    (hf : arr.length ≤ f) (i j : Nat) (hi : i < arr.length) (hj : j < arr.length)
    (hij : i ≠ j) (r : ExprNode) :
    searchAux mode f arr = search mode arr ∧
      (removeTwo arr i j ++ [r]).length = arr.length - 1 := by
  constructor
  · exact searchAux_fuel_indep mode f arr.length arr hf (le_refl _)
  · rw [List.length_append, removeTwo_length arr i j hi hj hij]
    simp only [List.length_cons, List.length_nil]
    omega

set_option maxHeartbeats 8000000 in
theorem search_terminates_witness :
    ([ExprNode.mk ⟨1, 1⟩ "1", ExprNode.mk ⟨2, 1⟩ "2"].length ≤ 5 ∧
        0 < [ExprNode.mk ⟨1, 1⟩ "1", ExprNode.mk ⟨2, 1⟩ "2"].length ∧
        1 < [ExprNode.mk ⟨1, 1⟩ "1", ExprNode.mk ⟨2, 1⟩ "2"].length ∧
        (0 : Nat) ≠ 1) ∧
      searchAux Mode.hard 5 [ExprNode.mk ⟨1, 1⟩ "1", ExprNode.mk ⟨2, 1⟩ "2"]
          = search Mode.hard [ExprNode.mk ⟨1, 1⟩ "1", ExprNode.mk ⟨2, 1⟩ "2"] ∧
        (removeTwo [ExprNode.mk ⟨1, 1⟩ "1", ExprNode.mk ⟨2, 1⟩ "2"] 0 1
            ++ [ExprNode.mk ⟨3, 1⟩ "3"]).length
          = [ExprNode.mk ⟨1, 1⟩ "1", ExprNode.mk ⟨2, 1⟩ "2"].length - 1 := by
  refine ⟨⟨by decide, by decide, by decide, by decide⟩, ?_⟩
  exact search_terminates Mode.hard [ExprNode.mk ⟨1, 1⟩ "1", ExprNode.mk ⟨2, 1⟩ "2"]
    5 (by decide) 0 1 (by decide) (by decide) (by decide) (ExprNode.mk ⟨3, 1⟩ "3")

/-- C9: every combined sub-expression text is `"(a_expr OP b_expr)"` for each
of the four operators, and a successful search on a pool of 1 to 4 operands
(tied by the pool invariant to the ghost expressions they denote) returns the
rendering of an expression — a syntactically well-formed, fully parenthesized
arithmetic string. -/
theorem search_fully_parenthesized (mode : Mode) (arr : List ExprNode)
    (es : List AExp) (hrel : List.Forall₂ (NodeInv mode) arr es)
    (hlen1 : 1 ≤ arr.length) (hlen4 : arr.length ≤ 4)
    (a b : ExprNode) (s : String) (hs : search mode arr = some s) :
    (∀ r, opAdd.calcFn a b = some r → r.expr = "(" ++ a.expr ++ "+" ++ b.expr ++ ")") ∧
    (∀ r, opSub.calcFn a b = some r → r.expr = "(" ++ a.expr ++ "-" ++ b.expr ++ ")") ∧
    (∀ r, opMul.calcFn a b = some r → r.expr = "(" ++ a.expr ++ "*" ++ b.expr ++ ")") ∧
    (∀ r, opDiv.calcFn a b = some r → r.expr = "(" ++ a.expr ++ "/" ++ b.expr ++ ")") ∧
    ∃ e : AExp, s = e.render := by
  refine ⟨?_, ?_, ?_, ?_, ?_⟩
  · intro r hr
    injection hr with hr'
    rw [← hr']
  · intro r hr
    injection hr with hr'
    rw [← hr']
  · intro r hr
    injection hr with hr'
    rw [← hr']
  · intro r hr
    have hdef : opDiv.calcFn a b =
        if b.val.absLt 1 1000000000 = true then none
        else some ⟨a.val.div b.val, "(" ++ a.expr ++ "/" ++ b.expr ++ ")"⟩ := rfl
    rw [hdef] at hr
    by_cases hguard : b.val.absLt 1 1000000000 = true
    · rw [if_pos hguard] at hr
      cases hr
    · rw [if_neg hguard] at hr
      injection hr with hr'
      rw [← hr']
  · unfold search at hs
    obtain ⟨e, h1, _, _, _, _⟩ := searchAux_sound mode arr.length arr es hrel s hs
    exact ⟨e, h1.symm⟩

set_option maxHeartbeats 8000000 in
theorem search_fully_parenthesized_witness :
    (1 ≤ (([1, 2, 3, 4] : List Int).map
          fun n => ExprNode.mk (Frac.ofInt n) (toString n)).length ∧
      (([1, 2, 3, 4] : List Int).map
          fun n => ExprNode.mk (Frac.ofInt n) (toString n)).length ≤ 4 ∧
      search Mode.hard (([1, 2, 3, 4] : List Int).map
          fun n => ExprNode.mk (Frac.ofInt n) (toString n)) = some "(4*(3+(1+2)))") ∧
      ∃ e : AExp, "(4*(3+(1+2)))" = e.render := by
  have hs : search Mode.hard (([1, 2, 3, 4] : List Int).map
      fun n => ExprNode.mk (Frac.ofInt n) (toString n)) = some "(4*(3+(1+2)))" := by
    decide
  obtain ⟨_, _, _, _, hex⟩ := search_fully_parenthesized Mode.hard _ _
    (seeds_forall₂ [1, 2, 3, 4] Mode.hard) (by decide) (by decide)
    (ExprNode.mk ⟨1, 1⟩ "1") (ExprNode.mk ⟨2, 1⟩ "2") "(4*(3+(1+2)))" hs
  exact ⟨⟨by decide, by decide, hs⟩, hex⟩

/-- C10: calling `findSolution` with an empty list returns `null` cleanly in
both modes: the base case needs exactly one operand and there are no position
pairs to iterate over, so the zero-size pool simply fails. -/
theorem findSolution_empty :
    findSolution [] Mode.easy = none ∧ findSolution [] Mode.hard = none := by
  constructor
  · rfl
  · rfl
